import Mathlib

/-!
Verification of the http-transit reverse proxy (Go) against its
natural-language specification.

The Go sources are shallowly embedded: strings are lists of characters
(`Str`), Go's `http.Header` (`map[string][]string`) is an association list
with unique keys, `map[string]string` is an association list, and the
standard-library helpers the code calls (`strings.HasPrefix`,
`strings.TrimSuffix`, `strings.ToLower`, `net/textproto`'s
`CanonicalMIMEHeaderKey`) are translated directly.  Effectful code
(`ServeHTTP`, `forwardRequest`) is embedded by passing the outcome of each
external I/O step explicitly in a `ForwardEnv` record.  External library
behaviour that the repository merely calls through an interface (gzip
decompression, `humanize.IBytes`, `time.Duration` formatting) is passed in
as a function parameter rather than re-implemented.
-/

namespace HttpTransit

/-- Go strings, embedded as lists of characters.  Go compares and sorts
strings byte-wise over UTF-8, which coincides with code-point order, so
character-list order is faithful. -/
abbrev Str := List Char

/-- `strings.ToLower`, restricted to ASCII (the only case the proxy meets in
header names): Go lowers each rune, `Char.toLower` lowers ASCII letters. -/
def lowerStr (s : Str) : Str := s.map Char.toLower

/-- Valid header-field bytes per `net/textproto` (`validHeaderFieldByte`):
RFC 7230 token characters. -/
def validHeaderFieldChar (c : Char) : Bool :=
  c.isAlphanum ||
    c ∈ ['!', '#', '$', '%', '&', Char.ofNat 39, '*', '+', '-', '.',
         Char.ofNat 94, '_', Char.ofNat 96, '|', Char.ofNat 126]

/-- The case-normalising loop of `textproto.canonicalMIMEHeaderKey`:
uppercase the first letter and each letter following a hyphen, lowercase
every other letter. -/
def canonChars : Bool → Str → Str
  | _, [] => []
  | upper, c :: cs =>
    (if upper then c.toUpper else c.toLower) :: canonChars (c == '-') cs

/-- `textproto.CanonicalMIMEHeaderKey`: keys containing an invalid header
byte are returned unchanged, otherwise the case normalisation is applied.
`http.Header.Get/Set/Del` all canonicalise their key with this function. -/
def canonicalMIMEHeaderKey (s : Str) : Str :=
  if s.all validHeaderFieldChar then canonChars true s else s

/-- Go's `http.Header`: `map[string][]string`, embedded as an association
list.  Go maps have unique keys; all operations below preserve key
uniqueness, and map iteration is embedded as list-order iteration. -/
abbrev Header := List (Str × List Str)

/-- Go map assignment `m[k] = v`: replace the value stored at `k`, or add
the binding if absent. -/
def mapAssign {β : Type} : List (Str × β) → Str → β → List (Str × β)
  | [], k, v => [(k, v)]
  | (k₀, v₀) :: t, k, v =>
    if k₀ = k then (k, v) :: t else (k₀, v₀) :: mapAssign t k v

/-- `http.Header.Get`: first value stored under the canonicalised key, or
`""` when the key is absent or its value list is empty. -/
def headerGet (h : Header) (k : Str) : Str :=
  match List.lookup (canonicalMIMEHeaderKey k) h with
  | some (v :: _) => v
  | _ => []

/-- `http.Header.Set`: store exactly `[v]` under the canonicalised key. -/
def headerSet (h : Header) (k v : Str) : Header :=
  mapAssign h (canonicalMIMEHeaderKey k) [v]

/-- `http.Header.Del`: remove the binding of the canonicalised key. -/
def headerDel (h : Header) (k : Str) : Header :=
  h.filter (fun e => !(e.1 == canonicalMIMEHeaderKey k))

/-- `HeadersConfig` from config.go.  `removes` is the unexported lookup set
(`map[string]struct{}`), embedded as the list of its keys; it is excluded
from JSON (`json:"-"`), so unmarshalling always leaves it empty. -/
structure HeadersConfig where
  Set : List (Str × Str)
  Extra : List (Str × Str)
  Remove : List Str
  ForwardClient : Bool
  removes : List Str
deriving DecidableEq

/-- `TransitRule` from config.go.  `backendPfx` embeds the Go field
`BackendPrefix` (renamed only in Lean). -/
structure TransitRule where
  BackendBase : Str
  backendPfx : Str
  Headers : HeadersConfig
deriving DecidableEq

/-- `Config` from config.go, restricted to the fields the forwarding path
reads; `TransitMap` is `map[string]TransitRule`. -/
structure Config where
  TransitMap : List (Str × TransitRule)
deriving DecidableEq

/-- One iteration of step 1 of `processHeaders`: skip the header when its
lowercased name is in the `removes` set, otherwise copy it by plain map
assignment (no canonicalisation). -/
def forwardStep (removes : List Str) (acc : Header) (kv : Str × List Str) : Header :=
  if removes.contains (lowerStr kv.1) then acc else mapAssign acc kv.1 kv.2

/-- Step 1 of `processHeaders` (both variants): when `forward_client` is
set, copy every inbound header not named in `removes` into a fresh map. -/
def forwardClientPhase (hc : HeadersConfig) (reqHeaders : Header) : Header :=
  if hc.ForwardClient then reqHeaders.foldl (forwardStep hc.removes) [] else []

/-- One iteration of step 2 of `processHeaders`: an `extra` entry is set
only when `Header.Get` currently answers the empty string for its name. -/
def extraStep (acc : Header) (kv : Str × Str) : Header :=
  if headerGet acc kv.1 = [] then headerSet acc kv.1 kv.2 else acc

/-- Step 2 of `processHeaders`: apply every `extra` entry. -/
def extraPhase (hc : HeadersConfig) (h : Header) : Header :=
  hc.Extra.foldl extraStep h

/-- One iteration of step 3 of `processHeaders`: a `set` entry deletes any
existing value for its name, then stores the single configured value. -/
def setStep (acc : Header) (kv : Str × Str) : Header :=
  headerSet (if headerGet acc kv.1 ≠ [] then headerDel acc kv.1 else acc) kv.1 kv.2

/-- Step 3 of `processHeaders`: apply every `set` entry. -/
def setPhase (hc : HeadersConfig) (h : Header) : Header :=
  hc.Set.foldl setStep h

/-- `processHeaders` of the src/unnamed/part_000 variant: the three policy
phases and nothing else (no Host forcing). -/
def processHeadersV0 (rule : TransitRule) (reqHeaders : Header) : Header :=
  setPhase rule.Headers (extraPhase rule.Headers (forwardClientPhase rule.Headers reqHeaders))

/-- The host part of `net/url.Parse` on the URL shapes the proxy builds:
for a string carrying an `http://` or `https://` scheme the host is the
authority section (up to the first `/`, `?` or `#`); for a scheme-less
string `url.Parse` yields an empty `Host`.  This embeds the standard
library at its contract on the well-formed base URLs the proxy handles. -/
def urlHost (s : Str) : Str :=
  if "http://".toList.isPrefixOf s then
    (s.drop 7).takeWhile (fun c => !(c == '/' || c == '?' || c == '#'))
  else if "https://".toList.isPrefixOf s then
    (s.drop 8).takeWhile (fun c => !(c == '/' || c == '?' || c == '#'))
  else []

/-- The scheme-defaulting step shared by `extractDomain` and
`buildTransitBackendURL`: prepend `http://` unless an `http(s)://` scheme
is already present. -/
def addHTTPScheme (s : Str) : Str :=
  if "http://".toList.isPrefixOf s || "https://".toList.isPrefixOf s then s
  else "http://".toList ++ s

/-- `extractHost` from proxy.go: `url.Parse` on the raw `backend_base`
(without scheme defaulting), answering its `Host` component. -/
def extractHost (backendBase : Str) : Str := urlHost backendBase

/-- `extractDomain` from proxy.go: default the scheme, then take the
parsed host. -/
def extractDomain (backendBase : Str) : Str := urlHost (addHTTPScheme backendBase)

/-- `processHeaders` of the src/proxy.go variant: the three policy phases
followed by forcing the `Host` header to the backend's host. -/
def processHeaders (rule : TransitRule) (reqHeaders : Header) : Header :=
  headerSet (processHeadersV0 rule reqHeaders) "Host".toList (extractHost rule.BackendBase)

/-- `strings.TrimSuffix`. -/
def goTrimSuffix (s suf : Str) : Str :=
  if suf.isSuffixOf s then s.take (s.length - suf.length) else s

/-- The inbound request data the forwarding path reads: `r.Host`,
`r.URL.Path`, `r.URL.RawQuery`, `r.Method`, `r.Header`. -/
structure Request where
  host : Str
  path : Str
  rawQuery : Str
  method : Str
  header : Header
deriving DecidableEq

/-- `buildTransitBackendURL` from proxy.go (identical in both variants):
trim a trailing `/` from the base, concatenate prefix and inbound path,
append the query, default a leading `/`, default the scheme; the error
result is the literal `nil` the Go function returns. -/
def buildTransitBackendURL (rule : TransitRule) (r : Request) : Str × Option Str :=
  let backendBase := goTrimSuffix rule.BackendBase "/".toList
  let path := rule.backendPfx ++ r.path
  let path := if r.rawQuery ≠ [] then path ++ "?".toList ++ r.rawQuery else path
  let path := if !("/".toList.isPrefixOf path) then "/".toList ++ path else path
  (addHTTPScheme backendBase ++ path, none)

/-- The URL-construction algorithm exactly as the specification words it:
strip a trailing `/` from `backend_base`, concatenate `backend_prefix`
with the inbound path, insert a leading `/` if the result lacks one, then
append `?` plus the query when it is non-empty, and default the scheme. -/
def specBackendURL (rule : TransitRule) (r : Request) : Str :=
  let base := goTrimSuffix rule.BackendBase "/".toList
  let p := rule.backendPfx ++ r.path
  let p := if !("/".toList.isPrefixOf p) then "/".toList ++ p else p
  let p := if r.rawQuery ≠ [] then p ++ "?".toList ++ r.rawQuery else p
  addHTTPScheme base ++ p

/-- The body of `LoadConfig`'s transit-map loop, as it acts on the loop
variable `rule`: when the raw `Remove` list is non-empty it populates the
`removes` lookup set with the lowercased entries.  In Go, `rule` is a copy
of the map value (`for host, rule := range config.TransitMap` on a
`map[string]TransitRule` of struct values). -/
def loadConfigRulePass (rule : TransitRule) : TransitRule :=
  if rule.Headers.Remove.length > 0 then
    { rule with Headers := { rule.Headers with removes := rule.Headers.Remove.map lowerStr } }
  else rule

/-- The effect of `LoadConfig`'s transit-map loop on the configuration it
returns.  The loop applies `loadConfigRulePass` to the per-iteration copy
of each rule and never assigns the copy back into `config.TransitMap`, so
the stored rules are returned exactly as `json.Unmarshal` produced them
(in particular with an empty `removes` set, since that field carries the
`json:"-"` tag). -/
def loadConfigTransitMap (m : List (Str × TransitRule)) : List (Str × TransitRule) := m

/-- `initializeClientPools` from proxy.go.  Pooled `http.Client` instances
are identified by the order of their creation (a fresh number per
`&http.Client{...}` allocation).  The Go loop skips a rule when the map
already has an entry under the rule's raw `BackendBase`, and otherwise
stores a freshly built client under `extractDomain(BackendBase)`. -/
def initializeClientPools (transitMap : List (Str × TransitRule)) : List (Str × Nat) :=
  (transitMap.foldl
    (fun st hostRule =>
      if (List.lookup hostRule.2.BackendBase st.1).isSome then st
      else (mapAssign st.1 (extractDomain hostRule.2.BackendBase) st.2, st.2 + 1))
    ([], 0)).1

/-- `getClientForDomain` from proxy.go: look the extracted domain up in the
client map (`none` embeds Go's `nil` result for a missing key). -/
def getClientForDomain (clients : List (Str × Nat)) (backendBase : Str) : Option Nat :=
  List.lookup (extractDomain backendBase) clients

/-- The backend's answer to `client.Do`, as far as the proxy reads it. -/
structure BackendResp where
  statusCode : Nat
  header : Header
deriving DecidableEq

/-- Outcomes of the five external I/O steps `forwardRequest` performs, in
program order: `io.ReadAll(r.Body)`, `http.NewRequest`, `client.Do`,
`io.ReadAll(resp.Body)`, `w.Write`.  Errors carry the `%v`-rendered text
interpolated into the trace error. -/
structure ForwardEnv where
  readBody : Except Str Str
  newRequestErr : Option Str
  doResp : Except Str BackendResp
  readRespBody : Except Str Str
  writeErr : Option Str

/-- The client-facing `http.ResponseWriter`, at the contract net/http
documents: the first `WriteHeader` fixes the status, later calls are
ignored; `Write` on an unset status implies status 200 and appends to the
body. -/
structure ResponseWriter where
  header : Header
  status : Option Nat
  bodyOut : Str
deriving DecidableEq

/-- `w.WriteHeader(code)`: only the first call takes effect. -/
def writeHeaderW (w : ResponseWriter) (code : Nat) : ResponseWriter :=
  if w.status.isSome then w else { w with status := some code }

/-- `w.Write(s)`: sets status 200 when none was written, appends `s`. -/
def writeW (w : ResponseWriter) (s : Str) : ResponseWriter :=
  let w' := if w.status.isSome then w else { w with status := some 200 }
  { w' with bodyOut := w'.bodyOut ++ s }

/-- `http.Error(w, msg, code)`: drop Content-Length, set the plain-text
content type and nosniff header, write the status, print `msg` plus a
newline. -/
def httpError (w : ResponseWriter) (msg : Str) (code : Nat) : ResponseWriter :=
  let h := headerDel w.header "Content-Length".toList
  let h := headerSet h "Content-Type".toList "text/plain; charset=utf-8".toList
  let h := headerSet h "X-Content-Type-Options".toList "nosniff".toList
  writeW (writeHeaderW { w with header := h } code) (msg ++ "\n".toList)

/-- `ProxyTrace` from proxy.go, with wall-clock fields as plain numbers. -/
structure ProxyTrace where
  duration : Nat := 0
  requestURL : Str := []
  backendURL : Str := []
  method : Str := []
  statusCode : Nat := 0
  errMsg : Option Str := none
  requestHeaders : Header := []
  transitHeaders : Header := []
  responseHeaders : Header := []
  requestBody : Str := []
  responseBody : Str := []
deriving DecidableEq

/-- Which externally visible steps a request execution reached:
`poolLookup` is the `getClientForDomain` call, `dispatched` the
`client.Do` call (the step that dials the backend). -/
structure Effects where
  poolLookup : Bool
  dispatched : Bool
deriving DecidableEq

/-- `forwardRequest` from proxy.go: read the inbound body, build the
outbound request, attach the processed headers, fetch the pooled client,
execute the round trip, read the answer, relay headers, status and body to
the client.  The first failing step stamps its descriptive error on the
trace and returns. -/
def forwardRequest (env : ForwardEnv) (r : Request) (targetURL : Str)
    (rule : TransitRule) (w : ResponseWriter) : ProxyTrace × ResponseWriter × Effects :=
  let trace : ProxyTrace :=
    { requestURL := r.host ++ r.path, backendURL := targetURL,
      method := r.method, requestHeaders := r.header }
  match env.readBody with
  | .error e => ({ trace with errMsg := some ("读取请求体失败: ".toList ++ e) }, w, ⟨false, false⟩)
  | .ok reqBody =>
    let trace := { trace with requestBody := reqBody }
    match env.newRequestErr with
    | some e => ({ trace with errMsg := some ("创建请求失败: ".toList ++ e) }, w, ⟨false, false⟩)
    | none =>
      let trace := { trace with transitHeaders := processHeaders rule r.header }
      match env.doResp with
      | .error e => ({ trace with errMsg := some ("转发请求失败: ".toList ++ e) }, w, ⟨true, true⟩)
      | .ok resp =>
        let trace := { trace with statusCode := resp.statusCode, responseHeaders := resp.header }
        match env.readRespBody with
        | .error e => ({ trace with errMsg := some ("读取响应体失败: ".toList ++ e) }, w, ⟨true, true⟩)
        | .ok rspBody =>
          let trace := { trace with responseBody := rspBody }
          let w := { w with header := resp.header.foldl (fun h kv => mapAssign h kv.1 kv.2) w.header }
          let w := writeHeaderW w resp.statusCode
          match env.writeErr with
          | some e => ({ trace with errMsg := some ("写入响应体失败: ".toList ++ e) }, w, ⟨true, true⟩)
          | none => (trace, writeW w rspBody, ⟨true, true⟩)

/-- Which return path `ServeHTTP` took. -/
inductive ServeOutcome
  | routeMissing
  | urlError
  | completed (t : ProxyTrace)
deriving DecidableEq

/-- Everything `ServeHTTP` leaves behind: the writer the client sees, the
reached effects, and the trace handed to `log.Debug` (when one was built). -/
structure ServeResult where
  outcome : ServeOutcome
  w : ResponseWriter
  eff : Effects
  debugTrace : Option ProxyTrace
deriving DecidableEq

/-- The port-stripping step of `ServeHTTP`: the `Host` header up to the
first colon. -/
def stripPort (host : Str) : Str := host.takeWhile (fun c => !(c == ':'))

/-- `ServeHTTP` from proxy.go: strip the port, look the route up (404 on a
miss, before any forwarding state exists), build the backend URL (500 on
its — never occurring — error), forward, log the trace, and surface a
trace error as a 500 whose body is the error text. -/
def serveHTTP (cfg : Config) (env : ForwardEnv) (r : Request) : ServeResult :=
  let w0 : ResponseWriter := { header := [], status := none, bodyOut := [] }
  let host := stripPort r.host
  match List.lookup host cfg.TransitMap with
  | none =>
    { outcome := .routeMissing, w := httpError w0 "转发规则未找到".toList 404,
      eff := ⟨false, false⟩, debugTrace := none }
  | some rule =>
    match buildTransitBackendURL rule r with
    | (_, some _) =>
      { outcome := .urlError, w := httpError w0 "内部错误".toList 500,
        eff := ⟨false, false⟩, debugTrace := none }
    | (targetURL, none) =>
      let res := forwardRequest env r targetURL rule w0
      match res.1.errMsg with
      | some e =>
        { outcome := .completed res.1, w := httpError res.2.1 e 500,
          eff := res.2.2, debugTrace := some res.1 }
      | none =>
        { outcome := .completed res.1, w := res.2.1,
          eff := res.2.2, debugTrace := some res.1 }

/-- `strings.Join`. -/
def joinWith (sep : Str) : List Str → Str
  | [] => []
  | [s] => s
  | s :: rest => s ++ sep ++ joinWith sep rest

/-- Go's string order (byte-wise over UTF-8, which equals code-point
order), as used by `sort.Strings`. -/
def lexLe : Str → Str → Bool
  | [], _ => true
  | _ :: _, [] => false
  | a :: as, b :: bs => if a = b then lexLe as bs else decide (a < b)

/-- Insertion step of the sort embedding `sort.Strings`. -/
def insertStr (s : Str) : List Str → List Str
  | [] => [s]
  | t :: ts => if lexLe s t then s :: t :: ts else t :: insertStr s ts

/-- `sort.Strings`, embedded as insertion sort: the rendered output only
depends on the sorted sequence, which any correct sort produces. -/
def sortStrs : List Str → List Str
  | [] => []
  | s :: ss => insertStr s (sortStrs ss)

/-- One header block of `ProxyTrace.String`: each entry rendered as
`"Name: v1,v2"`, the lines sorted, then joined with `"; "`. -/
def headerLines (h : Header) : Str :=
  joinWith "; ".toList
    (sortStrs (h.map (fun kv => kv.1 ++ ": ".toList ++ joinWith ",".toList kv.2)))

/-- `strings.Contains`. -/
def containsSub (s sub : Str) : Bool :=
  s.tails.any (fun t => sub.isPrefixOf t)

/-- The content-type test of `ProxyTrace.String`: JSON, form-encoded or any
`text/` type (case-insensitively) is rendered as text. -/
def textualContentType (ct : Str) : Bool :=
  containsSub (lowerStr ct) "application/json".toList ||
  containsSub (lowerStr ct) "application/x-www-form-urlencoded".toList ||
  containsSub (lowerStr ct) "text/".toList

/-- `%d` of the status code. -/
def natStr (n : Nat) : Str := (toString n).toList

/-- The body block of `ProxyTrace.String` (the same code appears once for
the request and once for the response): textual content types are shown
verbatim, gzip-encoded ones after decompression with the bracketed
`[gzip <type> <size>]` fallback on a decompression error, and non-textual
non-empty bodies as the bracketed `[<type> <size>]` placeholder.  `dec`
is `compress/gzip` behind `decompress` (`none` embeds its error return)
and `ibytes` is `humanize.IBytes` on the byte length. -/
def bodySegment (dec : Str → Option Str) (ibytes : Nat → Str)
    (hdrs : Header) (body : Str) : Str :=
  let ct := headerGet hdrs "Content-Type".toList
  if textualContentType ct then
    if containsSub (lowerStr (headerGet hdrs "Content-Encoding".toList)) "gzip".toList then
      match dec body with
      | some d => d
      | none => "[gzip ".toList ++ ct ++ " ".toList ++ ibytes body.length ++ "]".toList
    else body
  else if ct ≠ [] ∧ body.length > 0 then
    "[".toList ++ ct ++ " ".toList ++ ibytes body.length ++ "]".toList
  else []

/-- `ProxyTrace.String` from proxy.go: the always-present summary, then
the request-header, transit-header, request-body, response-header and
response-body blocks, each appended only when non-empty, the transit block
additionally only when it differs from the request block.  `durShow`
embeds `%v` of `time.Duration`. -/
def traceString (dec : Str → Option Str) (ibytes : Nat → Str) (durShow : Nat → Str)
    (p : ProxyTrace) : Str :=
  let reqHeaderString := headerLines p.requestHeaders
  let trsHeaderString := headerLines p.transitHeaders
  let reqBodyString := bodySegment dec ibytes p.requestHeaders p.requestBody
  let rspHeaderString := headerLines p.responseHeaders
  let rspBodyString := bodySegment dec ibytes p.responseHeaders p.responseBody
  let out := p.method ++ " ".toList ++ p.requestURL ++ " -> ".toList ++ p.backendURL
      ++ " | 耗时: ".toList ++ durShow p.duration ++ " | 状态: ".toList ++ natStr p.statusCode
  let out := if reqHeaderString ≠ [] then out ++ " | 请求头: ".toList ++ reqHeaderString else out
  let out := if trsHeaderString ≠ [] ∧ trsHeaderString ≠ reqHeaderString then
      out ++ " | 转发头: ".toList ++ trsHeaderString else out
  let out := if reqBodyString ≠ [] then out ++ " | 请求体: ".toList ++ reqBodyString else out
  let out := if rspHeaderString ≠ [] then out ++ " | 响应头: ".toList ++ rspHeaderString else out
  let out := if rspBodyString ≠ [] then out ++ " | 响应体: ".toList ++ rspBodyString else out
  out

/-- The rendering policy as the specification words it: compute the five
segment contents, keep a segment only when its content is non-empty, drop
the transit segment when it is byte-identical to the request-header
segment, and append the kept labelled segments to the summary line. -/
def renderSpec (dec : Str → Option Str) (ibytes : Nat → Str) (durShow : Nat → Str)
    (p : ProxyTrace) : Str :=
  let reqHeaderString := headerLines p.requestHeaders
  let trsHeaderString := headerLines p.transitHeaders
  let segments : List (Str × Str) :=
    [(" | 请求头: ".toList, reqHeaderString)] ++
    (if trsHeaderString = reqHeaderString then []
     else [(" | 转发头: ".toList, trsHeaderString)]) ++
    [(" | 请求体: ".toList, bodySegment dec ibytes p.requestHeaders p.requestBody),
     (" | 响应头: ".toList, headerLines p.responseHeaders),
     (" | 响应体: ".toList, bodySegment dec ibytes p.responseHeaders p.responseBody)]
  let kept := segments.filter (fun e => !(e.2 == []))
  p.method ++ " ".toList ++ p.requestURL ++ " -> ".toList ++ p.backendURL
      ++ " | 耗时: ".toList ++ durShow p.duration ++ " | 状态: ".toList ++ natStr p.statusCode
      ++ (kept.map (fun e => e.1 ++ e.2)).flatten

/-- The keys of an association list. -/
def keys {β : Type} (l : List (Str × β)) : List Str := l.map Prod.fst

theorem keys_nil {β : Type} : keys ([] : List (Str × β)) = [] := rfl

theorem keys_cons {β : Type} (e : Str × β) (t : List (Str × β)) :
    keys (e :: t) = e.1 :: keys t := rfl

theorem lookup_cons_ne {β : Type} {k k₀ : Str} (v₀ : β) (t : List (Str × β))
    (h : k ≠ k₀) : List.lookup k ((k₀, v₀) :: t) = List.lookup k t := by
  simp [List.lookup_cons, beq_false_of_ne h]

theorem lookup_mem {β : Type} {l : List (Str × β)} {k : Str} {v : β}
    (h : List.lookup k l = some v) : (k, v) ∈ l := by
  induction l with
  | nil => simp [List.lookup] at h
  | cons e t ih =>
    obtain ⟨k₀, v₀⟩ := e
    by_cases hk : k = k₀
    · subst hk
      rw [List.lookup_cons_self] at h
      simp [Option.some.injEq] at h
      simp [h]
    · rw [lookup_cons_ne _ _ hk] at h
      exact List.mem_cons_of_mem _ (ih h)

theorem lookup_eq_none_of_not_mem_keys {β : Type} {l : List (Str × β)} {k : Str}
    (h : k ∉ keys l) : List.lookup k l = none := by
  induction l with
  | nil => simp [List.lookup]
  | cons e t ih =>
    obtain ⟨k₀, v₀⟩ := e
    rw [keys_cons, List.mem_cons] at h
    push_neg at h
    rw [lookup_cons_ne _ _ h.1]
    exact ih h.2

theorem mapAssign_lookup_self {β : Type} (l : List (Str × β)) (k : Str) (v : β) :
    List.lookup k (mapAssign l k v) = some v := by
  induction l with
  | nil => simp [mapAssign]
  | cons e t ih =>
    obtain ⟨k₀, v₀⟩ := e
    by_cases h : k₀ = k
    · simp [mapAssign, h]
    · rw [mapAssign, if_neg h, lookup_cons_ne _ _ (Ne.symm h)]
      exact ih

theorem mapAssign_lookup_ne {β : Type} (l : List (Str × β)) {k k' : Str} (v : β)
    (h : k' ≠ k) : List.lookup k' (mapAssign l k v) = List.lookup k' l := by
  induction l with
  | nil => simp [mapAssign, lookup_cons_ne _ _ h]
  | cons e t ih =>
    obtain ⟨k₀, v₀⟩ := e
    by_cases hk : k₀ = k
    · subst hk
      rw [mapAssign, if_pos rfl, lookup_cons_ne _ _ h, lookup_cons_ne _ _ h]
    · by_cases hk' : k' = k₀
      · subst hk'
        rw [mapAssign, if_neg hk, List.lookup_cons_self, List.lookup_cons_self]
      · rw [mapAssign, if_neg hk, lookup_cons_ne _ _ hk', lookup_cons_ne _ _ hk']
        exact ih

theorem keys_mapAssign {β : Type} (l : List (Str × β)) (k : Str) (v : β) :
    keys (mapAssign l k v) = if k ∈ keys l then keys l else keys l ++ [k] := by
  induction l with
  | nil => simp [mapAssign, keys]
  | cons e t ih =>
    obtain ⟨k₀, v₀⟩ := e
    by_cases h : k₀ = k
    · subst h
      rw [mapAssign, if_pos rfl, keys_cons, keys_cons,
        if_pos (show k₀ ∈ ((k₀, v₀).1 : Str) :: keys t from List.mem_cons_self _ _)]
    · rw [mapAssign, if_neg h, keys_cons, keys_cons, ih]
      by_cases hm : k ∈ keys t
      · rw [if_pos hm, if_pos (show k ∈ ((k₀, v₀).1 : Str) :: keys t from List.mem_cons_of_mem _ hm)]
      · rw [if_neg hm,
          if_neg (show k ∉ ((k₀, v₀).1 : Str) :: keys t from by
            rw [List.mem_cons]; push_neg; exact ⟨Ne.symm h, hm⟩),
          List.cons_append]

theorem mapAssign_keys_nodup {β : Type} {l : List (Str × β)} (k : Str) (v : β)
    (h : (keys l).Nodup) : (keys (mapAssign l k v)).Nodup := by
  rw [keys_mapAssign]
  by_cases hm : k ∈ keys l
  · simpa [hm] using h
  · simp [hm, List.nodup_append, h]

theorem mapAssign_mem {β : Type} {l : List (Str × β)} {k : Str} {v : β} {e : Str × β}
    (h : e ∈ mapAssign l k v) : e ∈ l ∨ e = (k, v) := by
  induction l with
  | nil => simpa [mapAssign] using h
  | cons e₀ t ih =>
    obtain ⟨k₀, v₀⟩ := e₀
    by_cases hk : k₀ = k
    · rw [mapAssign, if_pos hk] at h
      rcases List.mem_cons.mp h with h | h
      · right; exact h
      · left; exact List.mem_cons_of_mem _ h
    · rw [mapAssign, if_neg hk] at h
      rcases List.mem_cons.mp h with h | h
      · left; simp [h]
      · rcases ih h with h' | h'
        · left; exact List.mem_cons_of_mem _ h'
        · right; exact h'

end HttpTransit

namespace HttpTransit

theorem headerDel_lookup_ne (h : Header) (k k' : Str)
    (hne : k' ≠ canonicalMIMEHeaderKey k) :
    List.lookup k' (headerDel h k) = List.lookup k' h := by
  induction h with
  | nil => rfl
  | cons e t ih =>
    obtain ⟨k₀, v₀⟩ := e
    by_cases h0 : k₀ = canonicalMIMEHeaderKey k
    · rw [headerDel] at ih ⊢
      rw [List.filter_cons, if_neg (by simp [h0])]
      rw [ih, lookup_cons_ne _ _ (by rw [h0]; exact hne)]
    · rw [headerDel] at ih ⊢
      rw [List.filter_cons, if_pos (by simp [h0])]
      by_cases hk : k' = k₀
      · subst hk
        rw [List.lookup_cons_self, List.lookup_cons_self]
      · rw [lookup_cons_ne _ _ hk, lookup_cons_ne _ _ hk, ih]

theorem headerDel_keys_nodup {h : Header} (k : Str)
    (hnd : (keys h).Nodup) : (keys (headerDel h k)).Nodup := by
  have hsub : List.Sublist (keys (headerDel h k)) (keys h) := by
    rw [headerDel, keys, keys]
    exact (List.filter_sublist h).map Prod.fst
  exact hsub.nodup hnd

theorem headerSet_lookup_other (h : Header) (k k' v)
    (hne : k' ≠ canonicalMIMEHeaderKey k) :
    List.lookup k' (headerSet h k v) = List.lookup k' h :=
  mapAssign_lookup_ne h [v] hne

theorem headerSet_lookup_self (h : Header) (k v) :
    List.lookup (canonicalMIMEHeaderKey k) (headerSet h k v) = some [v] :=
  mapAssign_lookup_self h (canonicalMIMEHeaderKey k) [v]

theorem headerSet_keys_nodup {h : Header} (k v) (hnd : (keys h).Nodup) :
    (keys (headerSet h k v)).Nodup :=
  mapAssign_keys_nodup _ _ hnd

/-- Generic preservation of a predicate along a left fold, with the step
property needed only at list members. -/
theorem foldl_preserve_mem {σ α : Type} {step : σ → α → σ} {P : σ → Prop} :
    ∀ (es : List α), (∀ acc kv, kv ∈ es → P acc → P (step acc kv)) →
      ∀ (acc : σ), P acc → P (es.foldl step acc)
  | [], _, _, h => h
  | e :: es, hstep, acc, h =>
    foldl_preserve_mem es (fun a kv hm => hstep a kv (List.mem_cons_of_mem _ hm))
      (step acc e) (hstep acc e (List.mem_cons_self _ _) h)

/-- Generic preservation of a predicate along a left fold. -/
theorem foldl_preserve {σ α : Type} {step : σ → α → σ} {P : σ → Prop}
    (hstep : ∀ acc kv, P acc → P (step acc kv)) (es : List α) (acc : σ)
    (h : P acc) : P (es.foldl step acc) :=
  foldl_preserve_mem es (fun a kv _ => hstep a kv) acc h

theorem extraStep_keys_nodup (acc) (kv) (h : (keys acc).Nodup) :
    (keys (extraStep acc kv)).Nodup := by
  rw [extraStep]
  split
  · exact headerSet_keys_nodup _ _ h
  · exact h

theorem setStep_keys_nodup (acc) (kv) (h : (keys acc).Nodup) :
    (keys (setStep acc kv)).Nodup := by
  rw [setStep]
  apply headerSet_keys_nodup
  split
  · exact headerDel_keys_nodup _ h
  · exact h

theorem extraPhase_keys_nodup (hc : HeadersConfig) (h : Header)
    (hnd : (keys h).Nodup) : (keys (extraPhase hc h)).Nodup :=
  foldl_preserve extraStep_keys_nodup hc.Extra h hnd

theorem setPhase_keys_nodup (hc : HeadersConfig) (h : Header)
    (hnd : (keys h).Nodup) : (keys (setPhase hc h)).Nodup :=
  foldl_preserve setStep_keys_nodup hc.Set h hnd

end HttpTransit

namespace HttpTransit

theorem mem_keys_of_mem {β : Type} {l : List (Str × β)} {k : Str} {v : β}
    (h : (k, v) ∈ l) : k ∈ keys l :=
  List.mem_map_of_mem Prod.fst h

theorem extraStep_lookup_frozen {k : Str} {v0 : Str} {vs : List Str} (hv : v0 ≠ [])
    (acc : Header) (kv : Str × Str) (h : List.lookup k acc = some (v0 :: vs)) :
    List.lookup k (extraStep acc kv) = some (v0 :: vs) := by
  rw [extraStep]
  by_cases hc : canonicalMIMEHeaderKey kv.1 = k
  · have hg : headerGet acc kv.1 = v0 := by rw [headerGet, hc, h]
    rw [if_neg (by rw [hg]; exact hv)]
    exact h
  · split
    · rw [headerSet_lookup_other _ _ _ _ (fun he => hc he.symm)]
      exact h
    · exact h

theorem extraStep_lookup_of_not_canon {k : Str} (acc : Header) (kv : Str × Str)
    (hc : canonicalMIMEHeaderKey kv.1 ≠ k) :
    List.lookup k (extraStep acc kv) = List.lookup k acc := by
  rw [extraStep]
  split
  · exact headerSet_lookup_other _ _ _ _ (fun he => hc he.symm)
  · rfl

theorem setStep_lookup_of_not_canon {k : Str} (acc : Header) (kv : Str × Str)
    (hc : canonicalMIMEHeaderKey kv.1 ≠ k) :
    List.lookup k (setStep acc kv) = List.lookup k acc := by
  rw [setStep, headerSet_lookup_other _ _ _ _ (fun he => hc he.symm)]
  split
  · exact headerDel_lookup_ne _ _ _ (fun he => hc he.symm)
  · rfl

theorem extraPhase_lookup_frozen (hc : HeadersConfig) {k : Str} {v0 : Str}
    {vs : List Str} (hv : v0 ≠ []) (h : Header)
    (hl : List.lookup k h = some (v0 :: vs)) :
    List.lookup k (extraPhase hc h) = some (v0 :: vs) := by
  rw [extraPhase]
  exact foldl_preserve (P := fun acc => List.lookup k acc = some (v0 :: vs))
    (fun acc kv hp => extraStep_lookup_frozen hv acc kv hp) hc.Extra h hl

theorem extraPhase_lookup_of_not_canon (hc : HeadersConfig) {k : Str} (h : Header)
    (hext : ∀ kv ∈ hc.Extra, canonicalMIMEHeaderKey kv.1 ≠ k) :
    List.lookup k (extraPhase hc h) = List.lookup k h := by
  rw [extraPhase]
  exact foldl_preserve_mem
    (P := fun acc => List.lookup k acc = List.lookup k h) hc.Extra
    (fun acc kv hm hp => by
      show List.lookup k (extraStep acc kv) = List.lookup k h
      rw [extraStep_lookup_of_not_canon acc kv (hext kv hm)]
      exact hp)
    h rfl

theorem setFold_lookup_of_not_canon {k : Str} (es : List (Str × Str)) (h : Header)
    (hset : ∀ kv ∈ es, canonicalMIMEHeaderKey kv.1 ≠ k) :
    List.lookup k (es.foldl setStep h) = List.lookup k h :=
  foldl_preserve_mem (P := fun acc => List.lookup k acc = List.lookup k h) es
    (fun acc kv hm hp => by
      show List.lookup k (setStep acc kv) = List.lookup k h
      rw [setStep_lookup_of_not_canon acc kv (hset kv hm)]
      exact hp)
    h rfl

theorem setPhase_lookup_of_not_canon (hc : HeadersConfig) {k : Str} (h : Header)
    (hset : ∀ kv ∈ hc.Set, canonicalMIMEHeaderKey kv.1 ≠ k) :
    List.lookup k (setPhase hc h) = List.lookup k h :=
  setFold_lookup_of_not_canon hc.Set h hset

theorem setFold_lookup_set : ∀ (es : List (Str × Str)) (h : Header) (k v : Str),
    (k, v) ∈ es → (es.map (fun kv => canonicalMIMEHeaderKey kv.1)).Nodup →
    List.lookup (canonicalMIMEHeaderKey k) (es.foldl setStep h) = some [v]
  | [], _, _, _, hmem, _ => absurd hmem (List.not_mem_nil _)
  | e :: es, h, k, v, hmem, hnd => by
    rw [List.map_cons, List.nodup_cons] at hnd
    rcases List.mem_cons.mp hmem with he | hmem'
    · subst he
      rw [List.foldl_cons]
      refine foldl_preserve_mem (P := fun acc =>
        List.lookup (canonicalMIMEHeaderKey k) acc = some [v]) es ?_ _ ?_
      · intro acc kv hm hp
        show List.lookup (canonicalMIMEHeaderKey k) (setStep acc kv) = some [v]
        rw [setStep_lookup_of_not_canon acc kv ?_]
        · exact hp
        · intro heq
          exact hnd.1 (heq ▸ List.mem_map_of_mem (fun kv => canonicalMIMEHeaderKey kv.1) hm)
      · show List.lookup (canonicalMIMEHeaderKey k) (setStep _ _) = some [v]
        rw [setStep, headerSet_lookup_self]
    · rw [List.foldl_cons]
      exact setFold_lookup_set es (setStep h e) k v hmem' hnd.2

theorem setPhase_lookup_set (hc : HeadersConfig) (h : Header) (k v : Str)
    (hmem : (k, v) ∈ hc.Set)
    (hnd : (hc.Set.map (fun kv => canonicalMIMEHeaderKey kv.1)).Nodup) :
    List.lookup (canonicalMIMEHeaderKey k) (setPhase hc h) = some [v] :=
  setFold_lookup_set hc.Set h k v hmem hnd

theorem mapAssign_eq_append {β : Type} : ∀ {l : List (Str × β)} {k : Str} {v : β},
    k ∉ keys l → mapAssign l k v = l ++ [(k, v)]
  | [], _, _, _ => rfl
  | (k₀, v₀) :: t, k, v, h => by
    rw [keys_cons, List.mem_cons] at h
    push_neg at h
    rw [mapAssign, if_neg (fun he => h.1 he.symm), mapAssign_eq_append h.2,
      List.cons_append]

theorem keys_append {β : Type} (l₁ l₂ : List (Str × β)) :
    keys (l₁ ++ l₂) = keys l₁ ++ keys l₂ := by
  rw [keys, keys, keys, List.map_append]

theorem forwardFold_eq_filter (removes : List Str) :
    ∀ (l : List (Str × List Str)) (acc : Header), (keys l).Nodup →
      (∀ k ∈ keys l, k ∉ keys acc) →
      l.foldl (forwardStep removes) acc
        = acc ++ l.filter (fun kv => !(removes.contains (lowerStr kv.1)))
  | [], acc, _, _ => by simp
  | (k, vs) :: t, acc, hnd, hdisj => by
    rw [keys_cons, List.nodup_cons] at hnd
    rw [List.foldl_cons, List.filter_cons]
    by_cases hr : removes.contains (lowerStr k) = true
    · rw [forwardStep, if_pos hr]
      rw [show (!removes.contains (lowerStr k)) = false by rw [hr]; rfl]
      rw [if_neg (by simp)]
      exact forwardFold_eq_filter removes t acc hnd.2
        (fun k' hk' => hdisj k' (by rw [keys_cons]; exact List.mem_cons_of_mem _ hk'))
    · rw [forwardStep, if_neg hr,
        mapAssign_eq_append (hdisj k (by rw [keys_cons]; exact List.mem_cons_self _ _))]
      rw [show (!removes.contains (lowerStr k)) = true by
        rw [Bool.eq_false_iff.mpr hr]; rfl]
      rw [if_pos rfl]
      rw [forwardFold_eq_filter removes t (acc ++ [(k, vs)]) hnd.2 ?_]
      · rw [List.append_assoc, List.singleton_append]
      · intro k' hk'
        rw [keys_append, List.mem_append]
        push_neg
        refine ⟨hdisj k' (by rw [keys_cons]; exact List.mem_cons_of_mem _ hk'), ?_⟩
        rw [show keys [(k, vs)] = [k] from rfl, List.mem_singleton]
        intro he
        exact hnd.1 (he ▸ hk')

theorem forwardClientPhase_eq_filter (hc : HeadersConfig) (reqHeaders : Header)
    (hfc : hc.ForwardClient = true) (hnd : (keys reqHeaders).Nodup) :
    forwardClientPhase hc reqHeaders
      = reqHeaders.filter (fun kv => !(hc.removes.contains (lowerStr kv.1))) := by
  rw [forwardClientPhase, if_pos hfc,
    forwardFold_eq_filter hc.removes reqHeaders [] hnd (by simp [keys]), List.nil_append]

theorem lookup_filter_of_mem {l : List (Str × List Str)} {k : Str} {vs : List Str}
    (q : Str × List Str → Bool) (hnd : (keys l).Nodup) (hmem : (k, vs) ∈ l)
    (hq : q (k, vs) = true) : List.lookup k (l.filter q) = some vs := by
  induction l with
  | nil => exact absurd hmem (List.not_mem_nil _)
  | cons e t ih =>
    obtain ⟨k₀, v₀⟩ := e
    rw [keys_cons, List.nodup_cons] at hnd
    rcases List.mem_cons.mp hmem with he | hmem'
    · injection he with he1 he2
      subst he1
      subst he2
      rw [List.filter_cons, if_pos hq, List.lookup_cons_self]
    · have hk : k ≠ k₀ := by
        intro he
        exact hnd.1 (he ▸ mem_keys_of_mem hmem')
      rw [List.filter_cons]
      split
      · rw [lookup_cons_ne _ _ hk]
        exact ih hnd.2 hmem'
      · exact ih hnd.2 hmem'

theorem lookup_filter_none {l : List (Str × List Str)} {k : Str}
    (q : Str × List Str → Bool) (h : k ∉ keys l) :
    List.lookup k (l.filter q) = none := by
  apply lookup_eq_none_of_not_mem_keys
  intro hmem
  apply h
  have hsub : List.Sublist (keys (l.filter q)) (keys l) :=
    (List.filter_sublist l).map Prod.fst
  exact hsub.subset hmem

end HttpTransit

namespace HttpTransit

/-- The C1 failing configuration's rule exactly as `json.Unmarshal` leaves
it (`removes` empty, `Remove` carrying the configured `"authorization"`). -/
def c1Rule : TransitRule :=
  { BackendBase := "http://backend:9000".toList, backendPfx := [],
    Headers := { Set := [], Extra := [], Remove := ["authorization".toList],
                 ForwardClient := true, removes := [] } }

/-- The C1 configuration after `LoadConfig`'s transit-map post-processing. -/
def c1Config : Config :=
  { TransitMap := loadConfigTransitMap [("api.example.com".toList, c1Rule)] }

/-- The C1 inbound request headers. -/
def c1Inbound : Header := [("Authorization".toList, ["Bearer t".toList])]

/-- Claim C1: false on the code.  The configuration stored by `LoadConfig`
still carries an empty `removes` set (the loop populated only its local
copy of the rule), so the header pipeline forwards the `Authorization`
header unchanged; had the populated copy (`loadConfigRulePass c1Rule`)
been stored, the same pipeline would strip it, which is what the
specification describes. -/
theorem c1_remove_never_applied :
    (List.lookup "api.example.com".toList c1Config.TransitMap).map
        (fun rule => List.lookup "Authorization".toList (processHeaders rule c1Inbound))
      = some (some ["Bearer t".toList])
    ∧ List.lookup "Authorization".toList
        (processHeaders (loadConfigRulePass c1Rule) c1Inbound) = none := by
  constructor
  · decide
  · decide

/-- The Scenario A route: `http://backend:9000` with prefix `/v1`. -/
def scenarioARule : TransitRule :=
  { BackendBase := "http://backend:9000".toList, backendPfx := "/v1".toList,
    Headers := { Set := [], Extra := [], Remove := [], ForwardClient := false,
                 removes := [] } }

/-- The Scenario A request: `GET /users?x=1` with Host `api.example.com:8080`. -/
def scenarioAReq : Request :=
  { host := "api.example.com:8080".toList, path := "/users".toList,
    rawQuery := "x=1".toList, method := "GET".toList, header := [] }

/-- Claim C3: `buildTransitBackendURL` computes exactly the URL the
specification's algorithm describes (the code appends the query before
inserting the leading slash, the specification after; the two orders
agree on every input), and Scenario A produces
`http://backend:9000/v1/users?x=1`. -/
theorem c3_buildURL_follows_spec :
    (∀ rule r, (buildTransitBackendURL rule r).1 = specBackendURL rule r) ∧
    (buildTransitBackendURL scenarioARule scenarioAReq).1
      = "http://backend:9000/v1/users?x=1".toList := by
  constructor
  · intro rule r
    by_cases hq : r.rawQuery = []
    · simp [buildTransitBackendURL, specBackendURL, hq]
    · rcases hp : rule.backendPfx ++ r.path with _ | ⟨c, cs⟩
      · simp [buildTransitBackendURL, specBackendURL, hq, hp, List.isPrefixOf]
      · simp [buildTransitBackendURL, specBackendURL, hq, hp, List.isPrefixOf]
        split <;> simp
  · decide

/-- Claim C10: the error component of `buildTransitBackendURL` is `none`
on every input, so the URL-failure branch of `ServeHTTP` can never be
taken. -/
theorem c10_urlError_unreachable :
    (∀ rule r, (buildTransitBackendURL rule r).2 = none) ∧
    (∀ cfg env r, (serveHTTP cfg env r).outcome ≠ ServeOutcome.urlError) := by
  refine ⟨fun rule r => rfl, fun cfg env r => ?_⟩
  rw [serveHTTP]
  rcases hl : List.lookup (stripPort r.host) cfg.TransitMap with _ | rule
  · simp
  · simp only [buildTransitBackendURL]
    rcases herr : (forwardRequest env r _ rule _).1.errMsg with _ | e <;> simp [herr]

/-- A trivial environment for closed instantiations. -/
def env0 : ForwardEnv :=
  { readBody := .ok [], newRequestErr := none,
    doResp := .ok { statusCode := 200, header := [] },
    readRespBody := .ok [], writeErr := none }

/-- Claim C6: a request whose (port-stripped) Host has no route gets the
404 client-error page, and the handler stops: no pool lookup, no dispatch,
and no trace is handed to the debug logger. -/
theorem c6_route_missing (cfg : Config) (env : ForwardEnv) (r : Request)
    (h : List.lookup (stripPort r.host) cfg.TransitMap = none) :
    (serveHTTP cfg env r).w.status = some 404 ∧
    (serveHTTP cfg env r).w.bodyOut = "转发规则未找到\n".toList ∧
    (serveHTTP cfg env r).eff.poolLookup = false ∧
    (serveHTTP cfg env r).eff.dispatched = false ∧
    (serveHTTP cfg env r).debugTrace = none := by
  rw [serveHTTP, h]
  exact ⟨rfl, rfl, rfl, rfl, rfl⟩

/-- Closed instantiation of `c6_route_missing` at the empty route table. -/
theorem c6_route_missing_witness :
    List.lookup (stripPort scenarioAReq.host) (Config.mk []).TransitMap = none ∧
    ((serveHTTP (Config.mk []) env0 scenarioAReq).w.status = some 404 ∧
     (serveHTTP (Config.mk []) env0 scenarioAReq).w.bodyOut = "转发规则未找到\n".toList ∧
     (serveHTTP (Config.mk []) env0 scenarioAReq).eff.poolLookup = false ∧
     (serveHTTP (Config.mk []) env0 scenarioAReq).eff.dispatched = false ∧
     (serveHTTP (Config.mk []) env0 scenarioAReq).debugTrace = none) :=
  ⟨by decide, c6_route_missing (Config.mk []) env0 scenarioAReq (by decide)⟩

end HttpTransit

namespace HttpTransit

/-- Claim C4 (amended): every forwarding failure is recorded on the trace
as a single descriptive error and surfaced through one uniform
`http.Error(w, err, 500)` call; for the four failures occurring before
the response relay the client therefore sees status 500 with the error
text as body, while a response-write failure leaves the already-written
backend status in place (the 500 write is superfluous and ignored) and
only appends the error text. -/
theorem c4_failure_propagation (cfg : Config) (env : ForwardEnv) (r : Request)
    (rule : TransitRule)
    (hroute : List.lookup (stripPort r.host) cfg.TransitMap = some rule) :
    (∀ e, env.readBody = .error e →
      (serveHTTP cfg env r).w.status = some 500 ∧
      (serveHTTP cfg env r).w.bodyOut = "读取请求体失败: ".toList ++ e ++ "\n".toList ∧
      (serveHTTP cfg env r).debugTrace.map ProxyTrace.errMsg
        = some (some ("读取请求体失败: ".toList ++ e))) ∧
    (∀ b e, env.readBody = .ok b → env.newRequestErr = some e →
      (serveHTTP cfg env r).w.status = some 500 ∧
      (serveHTTP cfg env r).w.bodyOut = "创建请求失败: ".toList ++ e ++ "\n".toList ∧
      (serveHTTP cfg env r).debugTrace.map ProxyTrace.errMsg
        = some (some ("创建请求失败: ".toList ++ e))) ∧
    (∀ b e, env.readBody = .ok b → env.newRequestErr = none → env.doResp = .error e →
      (serveHTTP cfg env r).w.status = some 500 ∧
      (serveHTTP cfg env r).w.bodyOut = "转发请求失败: ".toList ++ e ++ "\n".toList ∧
      (serveHTTP cfg env r).debugTrace.map ProxyTrace.errMsg
        = some (some ("转发请求失败: ".toList ++ e))) ∧
    (∀ b resp e, env.readBody = .ok b → env.newRequestErr = none →
        env.doResp = .ok resp → env.readRespBody = .error e →
      (serveHTTP cfg env r).w.status = some 500 ∧
      (serveHTTP cfg env r).w.bodyOut = "读取响应体失败: ".toList ++ e ++ "\n".toList ∧
      (serveHTTP cfg env r).debugTrace.map ProxyTrace.errMsg
        = some (some ("读取响应体失败: ".toList ++ e))) ∧
    (∀ b resp b2 e, env.readBody = .ok b → env.newRequestErr = none →
        env.doResp = .ok resp → env.readRespBody = .ok b2 → env.writeErr = some e →
      (serveHTTP cfg env r).w.status = some resp.statusCode ∧
      (serveHTTP cfg env r).w.bodyOut = "写入响应体失败: ".toList ++ e ++ "\n".toList ∧
      (serveHTTP cfg env r).debugTrace.map ProxyTrace.errMsg
        = some (some ("写入响应体失败: ".toList ++ e))) := by
  refine ⟨?_, ?_, ?_, ?_, ?_⟩
  · intro e hrb
    rw [serveHTTP, hroute]
    simp only [buildTransitBackendURL]
    rw [forwardRequest]
    simp only [hrb]
    exact ⟨rfl, rfl, rfl⟩
  · intro b e hrb hnr
    rw [serveHTTP, hroute]
    simp only [buildTransitBackendURL]
    rw [forwardRequest]
    simp only [hrb, hnr]
    exact ⟨rfl, rfl, rfl⟩
  · intro b e hrb hnr hdo
    rw [serveHTTP, hroute]
    simp only [buildTransitBackendURL]
    rw [forwardRequest]
    simp only [hrb, hnr, hdo]
    exact ⟨rfl, rfl, rfl⟩
  · intro b resp e hrb hnr hdo hrr
    rw [serveHTTP, hroute]
    simp only [buildTransitBackendURL]
    rw [forwardRequest]
    simp only [hrb, hnr, hdo, hrr]
    exact ⟨rfl, rfl, rfl⟩
  · intro b resp b2 e hrb hnr hdo hrr hwe
    rw [serveHTTP, hroute]
    simp only [buildTransitBackendURL]
    rw [forwardRequest]
    simp only [hrb, hnr, hdo, hrr, hwe]
    exact ⟨rfl, rfl, rfl⟩

end HttpTransit

namespace HttpTransit

/-- A one-route configuration used for closed C4 instantiations. -/
def c4Cfg : Config := { TransitMap := [("api.example.com".toList, scenarioARule)] }

/-- An execution whose only failure is the final response write, with the
backend having answered 200. -/
def c4WriteFailEnv : ForwardEnv :=
  { readBody := .ok [], newRequestErr := none,
    doResp := .ok { statusCode := 200, header := [] },
    readRespBody := .ok "hi".toList, writeErr := some "broken pipe".toList }

/-- Claim C4, as stated, is false: here a forwarding failure (the response
write) is recorded on the trace, yet the status the client sees is the
backend's 200 — not a 500-class status — because `WriteHeader(200)` had
already fixed it before `http.Error` ran. -/
theorem c4_counterexample :
    (serveHTTP c4Cfg c4WriteFailEnv scenarioAReq).debugTrace.map ProxyTrace.errMsg
      = some (some ("写入响应体失败: broken pipe".toList)) ∧
    (serveHTTP c4Cfg c4WriteFailEnv scenarioAReq).w.status = some 200 ∧
    ¬(500 ≤ 200 ∧ 200 < 600) := by
  refine ⟨?_, ?_, by decide⟩ <;> decide

/-- An execution failing at dispatch (backend unreachable). -/
def c4DispatchFailEnv : ForwardEnv :=
  { readBody := .ok [], newRequestErr := none,
    doResp := .error "connection refused".toList,
    readRespBody := .ok [], writeErr := none }

/-- Closed instantiation of `c4_failure_propagation` at a dispatch
failure. -/
theorem c4_failure_propagation_witness :
    List.lookup (stripPort scenarioAReq.host) c4Cfg.TransitMap = some scenarioARule ∧
    (serveHTTP c4Cfg c4DispatchFailEnv scenarioAReq).w.status = some 500 ∧
    (serveHTTP c4Cfg c4DispatchFailEnv scenarioAReq).w.bodyOut
      = "转发请求失败: ".toList ++ "connection refused".toList ++ "\n".toList :=
  ⟨by decide,
   ((c4_failure_propagation c4Cfg c4DispatchFailEnv scenarioAReq scenarioARule
      (by decide)).2.2.1 [] "connection refused".toList rfl rfl rfl).1,
   ((c4_failure_propagation c4Cfg c4DispatchFailEnv scenarioAReq scenarioARule
      (by decide)).2.2.1 [] "connection refused".toList rfl rfl rfl).2.1⟩

end HttpTransit

namespace HttpTransit

theorem forwardClientPhase_keys_nodup (hc : HeadersConfig) (inH : Header)
    (hnd : (keys inH).Nodup) : (keys (forwardClientPhase hc inH)).Nodup := by
  by_cases hfc : hc.ForwardClient = true
  · rw [forwardClientPhase_eq_filter hc inH hfc hnd]
    exact (((List.filter_sublist inH).map Prod.fst).nodup hnd)
  · rw [forwardClientPhase, if_neg hfc]
    exact List.nodup_nil

theorem processHeadersV0_keys_nodup (rule : TransitRule) (inH : Header)
    (hnd : (keys inH).Nodup) : (keys (processHeadersV0 rule inH)).Nodup :=
  setPhase_keys_nodup _ _ (extraPhase_keys_nodup _ _ (forwardClientPhase_keys_nodup _ _ hnd))

/-- The Scenario B rule: `forward_client` with `Authorization` removed and
`Host` set to `backend` (the backend base names the same host, so both
`processHeaders` variants agree on the outcome).  `removes` is the
derived lowercased set the specification's header-policy invariant
describes. -/
def scenarioBRule : TransitRule :=
  { BackendBase := "http://backend".toList, backendPfx := [],
    Headers := { Set := [("Host".toList, "backend".toList)], Extra := [],
                 Remove := ["Authorization".toList], ForwardClient := true,
                 removes := ["authorization".toList] } }

/-- The Scenario B inbound headers. -/
def scenarioBInbound : Header :=
  [("Authorization".toList, ["Bearer t".toList]), ("X-Foo".toList, ["1".toList])]

/-- Claim C2 (amended): with unique inbound names and `set` names that stay
distinct after canonicalisation, (1) a client-forwarded header whose first
value is a NON-EMPTY string survives `extra` and any `set` entry for a
different name unchanged, (2) a `set` name ends with exactly the single
configured value and the outbound name list stays duplicate-free, and
(3) Scenario B produces exactly {X-Foo: 1, Host: backend} under both
`processHeaders` variants. -/
theorem c2_header_precedence (rule : TransitRule) (inH : Header)
    (hnd : (keys inH).Nodup)
    (hsetnd : (rule.Headers.Set.map (fun kv => canonicalMIMEHeaderKey kv.1)).Nodup)
    (hfc : rule.Headers.ForwardClient = true) :
    (∀ k v0 vs, (k, v0 :: vs) ∈ inH → v0 ≠ [] →
      rule.Headers.removes.contains (lowerStr k) = false →
      (∀ kv ∈ rule.Headers.Set, canonicalMIMEHeaderKey kv.1 ≠ k) →
      List.lookup k (processHeadersV0 rule inH) = some (v0 :: vs)) ∧
    (∀ k v, (k, v) ∈ rule.Headers.Set →
      List.lookup (canonicalMIMEHeaderKey k) (processHeadersV0 rule inH) = some [v] ∧
      (keys (processHeadersV0 rule inH)).Nodup) ∧
    (processHeadersV0 scenarioBRule scenarioBInbound
        = [("X-Foo".toList, ["1".toList]), ("Host".toList, ["backend".toList])] ∧
      processHeaders scenarioBRule scenarioBInbound
        = [("X-Foo".toList, ["1".toList]), ("Host".toList, ["backend".toList])]) := by
  refine ⟨?_, ?_, by decide, by decide⟩
  · intro k v0 vs hmem hv hrm hset
    rw [processHeadersV0]
    rw [setPhase_lookup_of_not_canon _ _ hset]
    apply extraPhase_lookup_frozen _ hv
    rw [forwardClientPhase_eq_filter _ _ hfc hnd]
    exact lookup_filter_of_mem _ hnd hmem (by rw [hrm]; rfl)
  · intro k v hmem
    exact ⟨setPhase_lookup_set _ _ _ _ hmem hsetnd,
      processHeadersV0_keys_nodup rule inH hnd⟩

/-- Closed instantiation of `c2_header_precedence` at Scenario B. -/
theorem c2_header_precedence_witness :
    (keys scenarioBInbound).Nodup ∧
    (scenarioBRule.Headers.Set.map (fun kv => canonicalMIMEHeaderKey kv.1)).Nodup ∧
    scenarioBRule.Headers.ForwardClient = true ∧
    List.lookup "X-Foo".toList (processHeadersV0 scenarioBRule scenarioBInbound)
      = some ["1".toList] :=
  ⟨by decide, by decide, by decide,
   (c2_header_precedence scenarioBRule scenarioBInbound (by decide) (by decide)
      (by decide)).1 "X-Foo".toList "1".toList [] (by decide) (by decide) (by decide)
      (by decide)⟩

/-- The rule of the C2 counterexample: client forwarding plus one `extra`
entry for `X-Foo`. -/
def c2ExtraRule : TransitRule :=
  { BackendBase := "http://b".toList, backendPfx := [],
    Headers := { Set := [], Extra := [("X-Foo".toList, "e".toList)], Remove := [],
                 ForwardClient := true, removes := [] } }

/-- Claim C2, as stated, is false: `X-Foo` is present in both `extra` and
the client-forwarded headers (forwarded with the empty string as value),
yet the pipeline replaces the forwarded value with the `extra` value,
because the `extra` guard tests `Header.Get == ""` — emptiness of the
first value — not presence of the name. -/
theorem c2_counterexample :
    processHeadersV0 c2ExtraRule [("X-Foo".toList, [[]])]
      = [("X-Foo".toList, ["e".toList])] ∧
    (["e".toList] : List Str) ≠ [[]] := by
  exact ⟨by decide, by decide⟩

/-- Claim C9: the src/proxy.go `processHeaders` ends by forcing the `Host`
header: the outbound set binds `Host` to exactly the one-element list
holding `extractHost backend_base`, whatever client forwarding, `extra`
or `set` contributed, and its name list is duplicate-free; the
src/unnamed/part_000 variant (`processHeadersV0`) performs no such
forcing — when nothing mentions `Host`, its output has no `Host` entry. -/
theorem c9_host_forcing (rule : TransitRule) (inH : Header)
    (hnd : (keys inH).Nodup) :
    List.lookup "Host".toList (processHeaders rule inH)
      = some [extractHost rule.BackendBase] ∧
    (keys (processHeaders rule inH)).Nodup ∧
    ("Host".toList ∉ keys inH →
      (∀ kv ∈ rule.Headers.Extra, canonicalMIMEHeaderKey kv.1 ≠ "Host".toList) →
      (∀ kv ∈ rule.Headers.Set, canonicalMIMEHeaderKey kv.1 ≠ "Host".toList) →
      List.lookup "Host".toList (processHeadersV0 rule inH) = none) := by
  have hcanon : canonicalMIMEHeaderKey "Host".toList = "Host".toList := by decide
  refine ⟨?_, ?_, ?_⟩
  · rw [processHeaders]
    rw [show ("Host".toList : Str) = canonicalMIMEHeaderKey "Host".toList from hcanon.symm]
    rw [hcanon]
    have := headerSet_lookup_self (processHeadersV0 rule inH) "Host".toList
      (extractHost rule.BackendBase)
    rw [hcanon] at this
    exact this
  · rw [processHeaders]
    exact headerSet_keys_nodup _ _ (processHeadersV0_keys_nodup rule inH hnd)
  · intro hmem hextra hset
    rw [processHeadersV0, setPhase_lookup_of_not_canon _ _ hset,
      extraPhase_lookup_of_not_canon _ _ hextra]
    by_cases hfc : rule.Headers.ForwardClient = true
    · rw [forwardClientPhase_eq_filter _ _ hfc hnd]
      exact lookup_filter_none _ hmem
    · rw [forwardClientPhase, if_neg hfc]
      rfl

/-- Closed instantiation of `c9_host_forcing` at Scenario B's rule. -/
theorem c9_host_forcing_witness :
    (keys scenarioBInbound).Nodup ∧
    List.lookup "Host".toList (processHeaders scenarioBRule scenarioBInbound)
      = some [extractHost scenarioBRule.BackendBase] :=
  ⟨by decide,
   (c9_host_forcing scenarioBRule scenarioBInbound (by decide)).1⟩

end HttpTransit

namespace HttpTransit

/-- The character class ending the authority section in `urlHost`. -/
def hostChar (c : Char) : Bool := !(c == '/' || c == '?' || c == '#')

theorem urlHost_mem_hostChar (s : Str) : ∀ c ∈ urlHost s, hostChar c = true := by
  intro c hc
  rw [urlHost] at hc
  split at hc
  · exact List.mem_takeWhile_imp hc
  · split at hc
    · exact List.mem_takeWhile_imp hc
    · exact absurd hc (List.not_mem_nil _)

theorem extractDomain_mem_hostChar (b : Str) :
    ∀ c ∈ extractDomain b, hostChar c = true :=
  urlHost_mem_hostChar _

theorem takeWhile_eq_self_of_all {p : Char → Bool} :
    ∀ {l : Str}, (∀ c ∈ l, p c = true) → l.takeWhile p = l
  | [], _ => rfl
  | c :: t, h => by
    rw [List.takeWhile_cons, if_pos (h c (List.mem_cons_self _ _))]
    rw [takeWhile_eq_self_of_all (fun x hx => h x (List.mem_cons_of_mem _ hx))]

theorem not_scheme_of_hostChar {d : Str} (hd : ∀ c ∈ d, hostChar c = true) :
    ¬("http://".toList.isPrefixOf d = true ∨ "https://".toList.isPrefixOf d = true) := by
  rintro (hp | hp)
  · have hpre := List.isPrefixOf_iff_prefix.mp hp
    have hmem : '/' ∈ d := hpre.subset (by decide)
    have := hd '/' hmem
    simp [hostChar] at this
  · have hpre := List.isPrefixOf_iff_prefix.mp hp
    have hmem : '/' ∈ d := hpre.subset (by decide)
    have := hd '/' hmem
    simp [hostChar] at this

theorem urlHost_http_append (s : Str) :
    urlHost ("http://".toList ++ s) = s.takeWhile hostChar := by
  rw [urlHost, if_pos (List.isPrefixOf_iff_prefix.mpr (List.prefix_append _ _))]
  rw [show 7 = ("http://".toList).length from rfl, List.drop_left]
  rfl

theorem extractDomain_idem (b : Str) :
    extractDomain (extractDomain b) = extractDomain b := by
  have hd := extractDomain_mem_hostChar b
  rw [show extractDomain (extractDomain b)
      = urlHost (addHTTPScheme (extractDomain b)) from rfl]
  rw [addHTTPScheme, if_neg ?hno]
  case hno =>
    intro hor
    rcases Bool.or_eq_true_iff.mp hor with hp | hp
    · exact not_scheme_of_hostChar hd (Or.inl hp)
    · exact not_scheme_of_hostChar hd (Or.inr hp)
  rw [urlHost_http_append]
  exact takeWhile_eq_self_of_all hd

theorem lookup_isSome_of_mem_keys {β : Type} {l : List (Str × β)} {k : Str}
    (h : k ∈ keys l) : (List.lookup k l).isSome = true := by
  induction l with
  | nil => exact absurd h (List.not_mem_nil _)
  | cons e t ih =>
    obtain ⟨k₀, v₀⟩ := e
    by_cases hk : k = k₀
    · subst hk
      rw [List.lookup_cons_self]
      rfl
    · rw [lookup_cons_ne _ _ hk]
      rw [keys_cons, List.mem_cons] at h
      exact ih (h.resolve_left hk)

theorem mem_keys_of_lookup_isSome {β : Type} {l : List (Str × β)} {k : Str}
    (h : (List.lookup k l).isSome = true) : k ∈ keys l := by
  rcases ho : List.lookup k l with _ | v
  · rw [ho] at h
    simp at h
  · exact mem_keys_of_mem (lookup_mem ho)

theorem mapAssign_pairwise_ne {β : Type} :
    ∀ {l : List (Str × β)} {k : Str} {v : β},
      l.Pairwise (fun a b => a.2 ≠ b.2) → (∀ e ∈ l, e.2 ≠ v) →
      (mapAssign l k v).Pairwise (fun a b => a.2 ≠ b.2)
  | [], k, v, _, _ => List.pairwise_singleton _ _
  | (k₀, v₀) :: t, k, v, hp, hv => by
    rw [List.pairwise_cons] at hp
    by_cases hk : k₀ = k
    · rw [mapAssign, if_pos hk, List.pairwise_cons]
      refine ⟨fun e he => ?_, hp.2⟩
      exact fun heq => hv e (List.mem_cons_of_mem _ he) heq.symm
    · rw [mapAssign, if_neg hk, List.pairwise_cons]
      refine ⟨fun e he => ?_, ?_⟩
      · rcases mapAssign_mem he with hm | hm
        · exact hp.1 e hm
        · rw [hm]
          exact fun heq => hv (k₀, v₀) (List.mem_cons_self _ _) heq
      · exact mapAssign_pairwise_ne hp.2 (fun e he => hv e (List.mem_cons_of_mem _ he))

/-- The invariant `initializeClientPools` maintains: every client-map key
is its own extracted domain, client identities are pairwise distinct, and
all identities are below the allocation counter. -/
def PoolInv (st : List (Str × Nat) × Nat) : Prop :=
  (∀ e ∈ st.1, extractDomain e.1 = e.1) ∧
  st.1.Pairwise (fun a b => a.2 ≠ b.2) ∧
  (∀ e ∈ st.1, e.2 < st.2)

/-- The loop body of `initializeClientPools`. -/
def poolStep (st : List (Str × Nat) × Nat) (hostRule : Str × TransitRule) :
    List (Str × Nat) × Nat :=
  if (List.lookup hostRule.2.BackendBase st.1).isSome then st
  else (mapAssign st.1 (extractDomain hostRule.2.BackendBase) st.2, st.2 + 1)

theorem initializeClientPools_eq_fold (tm : List (Str × TransitRule)) :
    initializeClientPools tm = (tm.foldl poolStep ([], 0)).1 := rfl

theorem poolStep_inv (st : List (Str × Nat) × Nat) (e : Str × TransitRule)
    (h : PoolInv st) : PoolInv (poolStep st e) := by
  rw [poolStep]
  split
  · exact h
  · obtain ⟨hfix, hpair, hbound⟩ := h
    refine ⟨?_, ?_, ?_⟩
    · intro x hx
      rcases mapAssign_mem hx with hm | hm
      · exact hfix x hm
      · rw [hm]
        exact extractDomain_idem _
    · exact mapAssign_pairwise_ne hpair (fun x hx hne => absurd (hne ▸ hbound x hx) (lt_irrefl _))
    · intro x hx
      rcases mapAssign_mem hx with hm | hm
      · exact Nat.lt_succ_of_lt (hbound x hm)
      · rw [hm]
        exact Nat.lt_succ_self _

theorem poolStep_keys_persist (st : List (Str × Nat) × Nat) (e : Str × TransitRule)
    {k : Str} (h : k ∈ keys st.1) : k ∈ keys (poolStep st e).1 := by
  rw [poolStep]
  split
  · exact h
  · rw [keys_mapAssign]
    split
    · exact h
    · exact List.mem_append_left _ h

theorem pools_domain_present :
    ∀ (tm : List (Str × TransitRule)) (st : List (Str × Nat) × Nat), PoolInv st →
      ∀ hst r, (hst, r) ∈ tm →
        extractDomain r.BackendBase ∈ keys (tm.foldl poolStep st).1
  | [], _, _, _, _, hmem => absurd hmem (List.not_mem_nil _)
  | e :: t, st, hinv, hst, r, hmem => by
    rw [List.foldl_cons]
    rcases List.mem_cons.mp hmem with he | hmem'
    · have hpresent : extractDomain r.BackendBase ∈ keys (poolStep st e).1 := by
        rw [poolStep, ← he]
        split
        · rename_i hs
          have hbmem : r.BackendBase ∈ keys st.1 := mem_keys_of_lookup_isSome hs
          rw [keys] at hbmem
          rcases List.mem_map.mp hbmem with ⟨x, hx, hxe⟩
          have : extractDomain r.BackendBase = r.BackendBase := by
            rw [← hxe]
            exact hinv.1 x hx
          rw [this]
          exact hbmem
        · rw [keys_mapAssign]
          split
          · assumption
          · exact List.mem_append_right _ (List.mem_singleton.mpr rfl)
      exact foldl_preserve_mem (P := fun s => extractDomain r.BackendBase ∈ keys s.1) t
        (fun acc kv _ hp => poolStep_keys_persist acc kv hp) (poolStep st e) hpresent
    · exact pools_domain_present t (poolStep st e) (poolStep_inv st e hinv) hst r hmem'

theorem pools_inv_final (tm : List (Str × TransitRule)) :
    PoolInv (tm.foldl poolStep ([], 0)) :=
  foldl_preserve poolStep_inv tm ([], 0)
    ⟨fun _ h => absurd h (List.not_mem_nil _),
     List.Pairwise.nil,
     fun _ h => absurd h (List.not_mem_nil _)⟩

/-- Claim C5: after `initializeClientPools`, (1) every configured route's
backend resolves to a pooled client — `getClientForDomain` never misses —
(2) two routes sharing an extracted backend domain resolve to the
identical client instance, and (3) routes with different extracted
domains never share one. -/
theorem c5_pool_registry (tm : List (Str × TransitRule))
    (h1 h2 : Str) (r1 r2 : TransitRule)
    (hm1 : (h1, r1) ∈ tm) (hm2 : (h2, r2) ∈ tm) :
    (getClientForDomain (initializeClientPools tm) r1.BackendBase).isSome = true ∧
    (extractDomain r1.BackendBase = extractDomain r2.BackendBase →
      getClientForDomain (initializeClientPools tm) r1.BackendBase
        = getClientForDomain (initializeClientPools tm) r2.BackendBase) ∧
    (extractDomain r1.BackendBase ≠ extractDomain r2.BackendBase →
      getClientForDomain (initializeClientPools tm) r1.BackendBase
        ≠ getClientForDomain (initializeClientPools tm) r2.BackendBase) := by
  have hinv0 : PoolInv (([], 0) : List (Str × Nat) × Nat) :=
    ⟨fun _ h => absurd h (List.not_mem_nil _), List.Pairwise.nil,
     fun _ h => absurd h (List.not_mem_nil _)⟩
  have hp1 := pools_domain_present tm ([], 0) hinv0 h1 r1 hm1
  have hp2 := pools_domain_present tm ([], 0) hinv0 h2 r2 hm2
  refine ⟨?_, ?_, ?_⟩
  · rw [getClientForDomain, initializeClientPools_eq_fold]
    exact lookup_isSome_of_mem_keys hp1
  · intro hdom
    rw [getClientForDomain, getClientForDomain, hdom]
  · intro hdom
    rw [getClientForDomain, getClientForDomain, initializeClientPools_eq_fold]
    have hs1 := lookup_isSome_of_mem_keys hp1
    have hs2 := lookup_isSome_of_mem_keys hp2
    rcases ho1 : List.lookup (extractDomain r1.BackendBase) (tm.foldl poolStep ([], 0)).1
      with _ | v1
    · rw [ho1] at hs1
      simp at hs1
    rcases ho2 : List.lookup (extractDomain r2.BackendBase) (tm.foldl poolStep ([], 0)).1
      with _ | v2
    · rw [ho2] at hs2
      simp at hs2
    have hme1 := lookup_mem ho1
    have hme2 := lookup_mem ho2
    have hpair := (pools_inv_final tm).2.1
    have hvne : v1 ≠ v2 := by
      have hne : ((extractDomain r1.BackendBase, v1) : Str × Nat)
          ≠ (extractDomain r2.BackendBase, v2) := by
        intro he
        injection he with he1 _
        exact hdom he1
      exact List.Pairwise.forall (fun _ _ hab => Ne.symm hab) hpair hme1 hme2 hne
    intro he
    injection he with hv
    exact hvne hv

end HttpTransit

namespace HttpTransit

/-- A second route whose `backend_base` is scheme-less but names the same
backend host as Scenario A's route. -/
def c5RuleB : TransitRule :=
  { BackendBase := "backend:9000".toList, backendPfx := [],
    Headers := scenarioARule.Headers }

/-- A two-route table sharing one backend host. -/
def c5Table : List (Str × TransitRule) :=
  [("a.example.com".toList, scenarioARule), ("b.example.com".toList, c5RuleB)]

/-- Closed instantiation of `c5_pool_registry` at a table whose two routes
share the backend host `backend:9000`. -/
theorem c5_pool_registry_witness :
    ("a.example.com".toList, scenarioARule) ∈ c5Table ∧
    ("b.example.com".toList, c5RuleB) ∈ c5Table ∧
    (getClientForDomain (initializeClientPools c5Table) scenarioARule.BackendBase).isSome
      = true ∧
    getClientForDomain (initializeClientPools c5Table) scenarioARule.BackendBase
      = getClientForDomain (initializeClientPools c5Table) c5RuleB.BackendBase :=
  ⟨by decide, by decide,
   (c5_pool_registry c5Table "a.example.com".toList "b.example.com".toList
      scenarioARule c5RuleB (by decide) (by decide)).1,
   (c5_pool_registry c5Table "a.example.com".toList "b.example.com".toList
      scenarioARule c5RuleB (by decide) (by decide)).2.1 (by decide)⟩

end HttpTransit

namespace HttpTransit

/-- Claim C7: for a trace whose request side is textual and gzip-encoded,
the rendered request-body segment is the decompressed plaintext when
decompression succeeds and the bracketed gzip placeholder when it fails;
the same holds independently of the response side against its own
headers. -/
theorem c7_gzip_roundtrip (dec : Str → Option Str) (ibytes : Nat → Str)
    (p : ProxyTrace) :
    (textualContentType (headerGet p.requestHeaders "Content-Type".toList) = true →
      containsSub (lowerStr (headerGet p.requestHeaders "Content-Encoding".toList))
          "gzip".toList = true →
      (∀ P, dec p.requestBody = some P →
        bodySegment dec ibytes p.requestHeaders p.requestBody = P) ∧
      (dec p.requestBody = none →
        bodySegment dec ibytes p.requestHeaders p.requestBody
          = "[gzip ".toList ++ headerGet p.requestHeaders "Content-Type".toList
              ++ " ".toList ++ ibytes p.requestBody.length ++ "]".toList)) ∧
    (textualContentType (headerGet p.responseHeaders "Content-Type".toList) = true →
      containsSub (lowerStr (headerGet p.responseHeaders "Content-Encoding".toList))
          "gzip".toList = true →
      (∀ P, dec p.responseBody = some P →
        bodySegment dec ibytes p.responseHeaders p.responseBody = P) ∧
      (dec p.responseBody = none →
        bodySegment dec ibytes p.responseHeaders p.responseBody
          = "[gzip ".toList ++ headerGet p.responseHeaders "Content-Type".toList
              ++ " ".toList ++ ibytes p.responseBody.length ++ "]".toList)) := by
  constructor
  · intro hct henc
    constructor
    · intro P hdec
      rw [bodySegment, if_pos hct, if_pos henc, hdec]
    · intro hdec
      rw [bodySegment, if_pos hct, if_pos henc, hdec]
  · intro hct henc
    constructor
    · intro P hdec
      rw [bodySegment, if_pos hct, if_pos henc, hdec]
    · intro hdec
      rw [bodySegment, if_pos hct, if_pos henc, hdec]

/-- A trace holding a textual gzip-encoded request body. -/
def c7Trace : ProxyTrace :=
  { requestHeaders := [("Content-Type".toList, ["application/json".toList]),
                       ("Content-Encoding".toList, ["gzip".toList])],
    requestBody := "zzz".toList }

/-- Closed instantiation of `c7_gzip_roundtrip` with a decompressor that
recovers a JSON plaintext from the stored body. -/
theorem c7_gzip_roundtrip_witness :
    textualContentType (headerGet c7Trace.requestHeaders "Content-Type".toList) = true ∧
    containsSub (lowerStr (headerGet c7Trace.requestHeaders "Content-Encoding".toList))
        "gzip".toList = true ∧
    bodySegment (fun _ => some "{}".toList) (fun _ => "3 B".toList)
        c7Trace.requestHeaders c7Trace.requestBody = "{}".toList :=
  ⟨by decide, by decide,
   ((c7_gzip_roundtrip (fun _ => some "{}".toList) (fun _ => "3 B".toList) c7Trace).1
      (by decide) (by decide)).1 "{}".toList rfl⟩

end HttpTransit

namespace HttpTransit

/-- Claim C8: the rendered trace line equals the specification's
assembly — each of the five segments appears exactly when its content is
non-empty, and the transit-header segment additionally only when it
differs from the request-header segment. -/
theorem c8_segment_omission (dec : Str → Option Str) (ibytes : Nat → Str)
    (durShow : Nat → Str) (p : ProxyTrace) :
    traceString dec ibytes durShow p = renderSpec dec ibytes durShow p := by
  simp only [traceString, renderSpec]
  generalize p.method ++ " ".toList ++ p.requestURL ++ " -> ".toList ++ p.backendURL
      ++ " | 耗时: ".toList ++ durShow p.duration ++ " | 状态: ".toList
      ++ natStr p.statusCode = X
  generalize headerLines p.requestHeaders = A
  generalize headerLines p.transitHeaders = B
  generalize bodySegment dec ibytes p.requestHeaders p.requestBody = C
  generalize headerLines p.responseHeaders = D
  generalize bodySegment dec ibytes p.responseHeaders p.responseBody = E
  by_cases h1 : A = [] <;>
  by_cases h2 : B = A <;>
  by_cases h3 : B = [] <;>
  by_cases h4 : C = [] <;>
  by_cases h5 : D = [] <;>
  by_cases h6 : E = [] <;>
  simp [h1, h2, h3, h4, h5, h6, beq_iff_eq, List.append_assoc]

end HttpTransit
